import Mathlib

/-!
Shallow embedding of the cate image-compressor (`compress.js`) and proofs
about its adaptive compression search.

Modelling conventions:
- JavaScript numbers (IEEE doubles) are modelled as exact rationals `ℚ`;
  integer-valued quantities (byte sizes, qualities, dimensions) as `ℕ`/`ℤ`.
  `Math.round` is `jsRound` (round half toward +∞), `Math.floor` on an
  integer-over-integer division is `Int.fdiv`.
- The sharp codec library is external: it is modelled as an oracle
  (`Codec`) mapping the arguments of one encode call (source path, resize
  options, format, format options) to an encoded length or an error.
  Every encode call the program makes is recorded in an `EncodeCall`
  trace so that per-attempt invariants can be stated.
- `path.extname` / directory scanning are glue: a candidate file is
  modelled as a record carrying its already-extracted lowercased
  extension together with the `getFileSize` result (`0` encodes both a
  stat failure and an empty file, as in `getFileSize`).
-/

namespace Cate

/-- JS `Math.round`: round half toward positive infinity. -/
def jsRound (q : ℚ) : ℤ := ⌊q + 1/2⌋

/-- `const TARGET_SIZE = 100 * 1024` (bytes). -/
def TARGET_SIZE : ℕ := 100 * 1024

/-- JS truthiness of a nullable number: `null` and `0` (and `NaN`,
subsumed here by `none`) are falsy. -/
def truthy : Option ℤ → Bool
  | none => false
  | some n => n != 0

/-- JS truthiness of a nullable string: `null` and `""` are falsy. -/
def strTruthy : Option String → Bool
  | none => false
  | some s => s != ""

/-- The parsed command-line flags `w=`, `h=`, `t=` (`none` models both an
absent flag and a `parseInt` result of `NaN`). -/
structure Config where
  targetWidth : Option ℤ
  targetHeight : Option ℤ
  targetFormat : Option String
deriving DecidableEq, Repr

/-- The global `MAX_DIMENSION` after argument parsing: initialised to
`1920` and set to `0` exactly when a specific width or height was
provided (lines 9 and 28-30 of the source). -/
def MAX_DIMENSION (cfg : Config) : ℤ :=
  if truthy cfg.targetWidth || truthy cfg.targetHeight then 0 else 1920

/-- `estimateQuality(sizeRatio)`: piecewise-linear quality seed
(lines 64-77). -/
def estimateQuality (sizeRatio : ℚ) : ℤ :=
  if sizeRatio ≥ 8/10 then jsRound (85 + (sizeRatio - 8/10) * 50)
  else if sizeRatio ≥ 5/10 then jsRound (70 + (sizeRatio - 5/10) * 50)
  else if sizeRatio ≥ 3/10 then jsRound (50 + (sizeRatio - 3/10) * 100)
  else jsRound (30 + sizeRatio * (667/10))

/-- Line 92: `estimatedQuality = Math.max(10, Math.min(95, estimatedQuality))`. -/
def clampedQuality (sizeRatio : ℚ) : ℤ :=
  max 10 (min 95 (estimateQuality sizeRatio))

/-- sharp `fit` modes used by the program. -/
inductive FitMode
  | fill
  | inside
deriving DecidableEq, Repr

/-- The `resizeOptions` object passed to `sharp.resize`; absent fields are
`none`/`false` as in a partial JS object literal. -/
structure ResizeOptions where
  width : Option ℤ := none
  height : Option ℤ := none
  fit : Option FitMode := none
  withoutEnlargement : Bool := false
deriving DecidableEq, Repr

/-- The resize applied on the initial attempt (lines 100-133): `none`
means `sharp.resize` is not called at all. -/
def initialResize (targetWidth targetHeight : Option ℤ) (maxDimension : ℤ) :
    Option ResizeOptions :=
  if truthy targetWidth || truthy targetHeight then
    if truthy targetWidth && truthy targetHeight then
      some { width := targetWidth, height := targetHeight, fit := some .fill }
    else if truthy targetWidth then
      some { width := targetWidth, fit := some .inside, withoutEnlargement := true }
    else if truthy targetHeight then
      some { height := targetHeight, fit := some .inside, withoutEnlargement := true }
    else
      some {}
  else if maxDimension > 0 then
    some { width := some maxDimension, height := some maxDimension,
           fit := some .inside, withoutEnlargement := true }
  else
    none

/-- The resize recomputed inside the refinement loop (lines 176-201),
transcribed separately from `initialResize` because the source duplicates
the block; the no-drift claim compares the two. -/
def refineResize (targetWidth targetHeight : Option ℤ) (maxDimension : ℤ) :
    Option ResizeOptions :=
  if truthy targetWidth || truthy targetHeight then
    if truthy targetWidth && truthy targetHeight then
      some { width := targetWidth, height := targetHeight, fit := some .fill }
    else if truthy targetWidth then
      some { width := targetWidth, fit := some .inside, withoutEnlargement := true }
    else if truthy targetHeight then
      some { height := targetHeight, fit := some .inside, withoutEnlargement := true }
    else
      some {}
  else if maxDimension > 0 then
    some { width := some maxDimension, height := some maxDimension,
           fit := some .inside, withoutEnlargement := true }
  else
    none

/-- Output format selection (lines 136-141): `'jpeg'` unless a truthy
`t=` flag was given. -/
def outputFormat (targetFormat : Option String) : String :=
  if strTruthy targetFormat then targetFormat.getD "jpeg" else "jpeg"

/-- Format options passed to the encoder. -/
inductive FormatOptions
  | quality (q : ℤ)
  | compressionLevel (level : ℤ)
deriving DecidableEq, Repr

/-- Format options for a given output format and quality scalar
(lines 136-147 for the initial attempt, 203-208 in the loop; both compute
the same mapping): PNG uses `compressionLevel = Math.floor((100-q)/10)`,
everything else `{quality: q}`. -/
def formatOptionsFor (fmt : String) (quality : ℤ) : FormatOptions :=
  if fmt = "png" then .compressionLevel (Int.fdiv (100 - quality) 10)
  else .quality quality

/-- The external codec (sharp): one encode call, returning the encoded
byte length or an error. -/
structure Codec where
  encode : String → Option ResizeOptions → String → FormatOptions → Except String ℕ

/-- A record of one encode call the program performed: the source path
given to `sharp(...)`, the resize options, the output format, the quality
scalar driving the attempt, the concrete format options, and the result
(`none` if the codec threw). -/
structure EncodeCall where
  source : String
  resize : Option ResizeOptions
  format : String
  q : ℤ
  opts : FormatOptions
  result : Option ℕ
deriving DecidableEq, Repr

/-- The refinement `while` loop (lines 166-227): while the buffer is over
target, quality is above `10`, and fewer than `5` attempts were made,
decrement quality by `10`, rebuild the pipeline from the original file
path, re-encode, and increment the attempt counter. Returns the trace of
encode calls made and either the loop's final `(bufferLength, quality,
attempts)` or the first codec error.

Recursion is structural on a `fuel` argument; the program enters the loop
with `attempts = 0` and `fuel = 5`, so `fuel = 5 - attempts` holds at
every iteration and the `fuel = 0` base case coincides with the
`attempts < 5` guard failing: the loop's own guard (transcribed intact in
the condition below) is what stops the iteration. -/
def refineAux (codec : Codec) (cfg : Config) (filePath : String) (fmt : String) :
    ℕ → ℕ → ℤ → ℕ → List EncodeCall × Except String (ℕ × ℤ × ℕ)
  | 0, bufLen, quality, attempts => ([], .ok (bufLen, quality, attempts))
  | fuel + 1, bufLen, quality, attempts =>
    if TARGET_SIZE < bufLen ∧ 10 < quality ∧ attempts < 5 then
      let q := quality - 10
      let spec := refineResize cfg.targetWidth cfg.targetHeight (MAX_DIMENSION cfg)
      let opts := formatOptionsFor fmt q
      match codec.encode filePath spec fmt opts with
      | .error e => ([⟨filePath, spec, fmt, q, opts, none⟩], .error e)
      | .ok len =>
          let rest := refineAux codec cfg filePath fmt fuel len q (attempts + 1)
          (⟨filePath, spec, fmt, q, opts, some len⟩ :: rest.1, rest.2)
    else
      ([], .ok (bufLen, quality, attempts))

/-- The body of `compressWithRatio` after the quality seed has been
clamped (lines 97-259): build the resize spec, pick the output format and
format options, encode once, run the refinement loop, and return the
final buffer length; any codec error is caught at single-file scope and
the original size is returned unchanged. The second component is the
trace of encode calls made. -/
def compressCore (codec : Codec) (cfg : Config) (filePath : String)
    (originalSize : ℕ) (estimatedQuality : ℤ) : ℕ × List EncodeCall :=
  let spec := initialResize cfg.targetWidth cfg.targetHeight (MAX_DIMENSION cfg)
  let fmt := outputFormat cfg.targetFormat
  let opts := formatOptionsFor fmt estimatedQuality
  match codec.encode filePath spec fmt opts with
  | .error _ => (originalSize, [⟨filePath, spec, fmt, estimatedQuality, opts, none⟩])
  | .ok len =>
      let call0 : EncodeCall := ⟨filePath, spec, fmt, estimatedQuality, opts, some len⟩
      let rest := refineAux codec cfg filePath fmt 5 len estimatedQuality 0
      (match rest.2 with
       | .error _ => originalSize
       | .ok (finalLen, _, _) => finalLen,
       call0 :: rest.1)

/-- `compressWithRatio(filePath, originalSize)` (lines 82-260): compute
`sizeRatio = TARGET_SIZE / originalSize` (line 88), seed and clamp the
quality (lines 89-92), then run the encode pipeline. -/
def compressWithRatio (codec : Codec) (cfg : Config) (filePath : String)
    (originalSize : ℕ) : ℕ × List EncodeCall :=
  compressCore codec cfg filePath originalSize
    (clampedQuality ((TARGET_SIZE : ℚ) / (originalSize : ℚ)))

/-- A candidate file of the batch: name, lowercased extension without the
dot (the `path.extname(...).slice(1)` of the source, abstracted as a
field), and the `getFileSize` result (`0` on stat error or empty file). -/
structure FileEntry where
  name : String
  ext : String
  size : ℕ
deriving DecidableEq, Repr

/-- The extension allow-list of the directory scan (lines 296-300). -/
def isImageFile (f : FileEntry) : Bool :=
  f.ext == "webp" || f.ext == "png" || f.ext == "tiff" || f.ext == "tif"

/-- Line 326: `targetFormat && targetFormat !== ext`. -/
def needsFormatConversion (targetFormat : Option String) (ext : String) : Bool :=
  strTruthy targetFormat && (targetFormat.getD "" != ext)

/-- Line 327: `targetWidth || targetHeight || MAX_DIMENSION > 0`. -/
def needsResize (cfg : Config) : Bool :=
  truthy cfg.targetWidth || truthy cfg.targetHeight || decide (MAX_DIMENSION cfg > 0)

/-- Line 329 skip condition:
`originalSize <= TARGET_SIZE && !needsFormatConversion && !needsResize`. -/
def shouldSkip (cfg : Config) (f : FileEntry) : Bool :=
  decide (f.size ≤ TARGET_SIZE) && !needsFormatConversion cfg.targetFormat f.ext
    && !needsResize cfg

/-- What the batch driver did with one candidate file. -/
inductive FileOutcome
  | sizeReadSkip
  | policySkip
  | compressed (newSize : ℕ)
  | failed (newSize : ℕ)
deriving DecidableEq, Repr

/-- The per-file body of the driver loop (lines 312-347): skip on
unreadable/zero size, skip by policy, otherwise invoke the compression
search and classify the result by `newSize < originalSize`. -/
def processFile (codec : Codec) (cfg : Config) (f : FileEntry) : FileOutcome :=
  if f.size = 0 then .sizeReadSkip
  else if shouldSkip cfg f then .policySkip
  else
    let newSize := (compressWithRatio codec cfg f.name f.size).1
    if newSize < f.size then .compressed newSize else .failed newSize

/-- `compressImages` (lines 272-354): filter candidates by extension and
process each file in order; the loop never aborts early. -/
def compressImages (codec : Codec) (cfg : Config) (files : List FileEntry) :
    List (FileEntry × FileOutcome) :=
  (files.filter isImageFile).map fun f => (f, processFile codec cfg f)

/-- Quality Estimator written from the spec's own words (piecewise table,
rounded to nearest, then clamped to `[10, 95]`); compared with the
source-derived `clampedQuality` in the refinement theorem. -/
def specSeed (r : ℚ) : ℤ :=
  let formula : ℚ :=
    if r ≥ 8/10 then 85 + (r - 8/10) * 50
    else if r ≥ 5/10 then 70 + (r - 5/10) * 50
    else if r ≥ 3/10 then 50 + (r - 3/10) * 100
    else 30 + r * (667/10)
  max 10 (min 95 (jsRound formula))

/-- A config with none of the `w=`, `h=`, `t=` flags. -/
def cfgNone : Config := ⟨none, none, none⟩

/-- A codec whose every encode yields 200000 bytes (always over target). -/
def bigCodec : Codec := ⟨fun _ _ _ _ => .ok 200000⟩

/-- A codec whose every encode yields 40000 bytes (always under target). -/
def smallCodec : Codec := ⟨fun _ _ _ _ => .ok 40000⟩

/-- A codec that always fails. -/
def failCodec : Codec := ⟨fun _ _ _ _ => .error "boom"⟩

/-! General lemmas about the embedding. -/

theorem jsRound_eq (q : ℚ) (z : ℤ) (h1 : (z : ℚ) ≤ q + 1/2) (h2 : q + 1/2 < z + 1) :
    jsRound q = z := by
  rw [jsRound]; exact Int.floor_eq_iff.mpr ⟨h1, h2⟩

theorem le_jsRound (z : ℤ) (q : ℚ) (h : (z : ℚ) ≤ q + 1/2) : z ≤ jsRound q :=
  Int.le_floor.mpr h

theorem clampedQuality_le95 (r : ℚ) : clampedQuality r ≤ 95 :=
  max_le (by norm_num) (min_le_left _ _)

theorem ten_le_clampedQuality (r : ℚ) : 10 ≤ clampedQuality r :=
  le_max_left _ _

/-- The two duplicated resize blocks of the source compute the same
options: the loop re-derives exactly the initial attempt's resize. -/
theorem refineResize_eq_initialResize (w h : Option ℤ) (m : ℤ) :
    refineResize w h m = initialResize w h m := rfl

theorem refineAux_len (codec : Codec) (cfg : Config) (p fmt : String) :
    ∀ (fuel bufLen : ℕ) (quality : ℤ) (attempts : ℕ),
      (refineAux codec cfg p fmt fuel bufLen quality attempts).1.length ≤ fuel := by
  intro fuel
  induction fuel with
  | zero => intro b q a; simp [refineAux]
  | succ n ih =>
      intro b q a
      simp only [refineAux]
      by_cases h : TARGET_SIZE < b ∧ 10 < q ∧ a < 5
      · rw [if_pos h]
        cases henc : codec.encode p
            (refineResize cfg.targetWidth cfg.targetHeight (MAX_DIMENSION cfg)) fmt
            (formatOptionsFor fmt (q - 10)) with
        | error e => simp
        | ok len =>
            simpa using Nat.succ_le_succ (ih len (q - 10) (a + 1))
      · rw [if_neg h]; simp

theorem refineAux_q_at (codec : Codec) (cfg : Config) (p fmt : String) :
    ∀ (fuel bufLen : ℕ) (quality : ℤ) (attempts : ℕ) (i : ℕ) (c : EncodeCall),
      (refineAux codec cfg p fmt fuel bufLen quality attempts).1.get? i = some c →
      c.q = quality - 10 * ((i : ℤ) + 1) := by
  intro fuel
  induction fuel with
  | zero => intro b q a i c hc; simp [refineAux] at hc
  | succ n ih =>
      intro b q a i c hc
      simp only [refineAux] at hc
      by_cases h : TARGET_SIZE < b ∧ 10 < q ∧ a < 5
      · rw [if_pos h] at hc
        cases henc : codec.encode p
            (refineResize cfg.targetWidth cfg.targetHeight (MAX_DIMENSION cfg)) fmt
            (formatOptionsFor fmt (q - 10)) with
        | error e =>
            rw [henc] at hc
            cases i with
            | zero =>
                simp only [List.get?_cons_zero, Option.some_inj] at hc
                subst hc
                dsimp
            | succ j => simp at hc
        | ok len =>
            rw [henc] at hc
            cases i with
            | zero =>
                simp only [List.get?_cons_zero, Option.some_inj] at hc
                subst hc
                dsimp
            | succ j =>
                simp only [List.get?_cons_succ] at hc
                rw [ih len (q - 10) (a + 1) j c hc]
                push_cast
                ring
      · rw [if_neg h] at hc; simp at hc

theorem refineAux_q_bounds (codec : Codec) (cfg : Config) (p fmt : String) :
    ∀ (fuel bufLen : ℕ) (quality : ℤ) (attempts : ℕ),
      ∀ c ∈ (refineAux codec cfg p fmt fuel bufLen quality attempts).1,
        1 ≤ c.q ∧ c.q ≤ quality - 10 := by
  intro fuel
  induction fuel with
  | zero => intro b q a c hc; simp [refineAux] at hc
  | succ n ih =>
      intro b q a c hc
      simp only [refineAux] at hc
      by_cases h : TARGET_SIZE < b ∧ 10 < q ∧ a < 5
      · rw [if_pos h] at hc
        cases henc : codec.encode p
            (refineResize cfg.targetWidth cfg.targetHeight (MAX_DIMENSION cfg)) fmt
            (formatOptionsFor fmt (q - 10)) with
        | error e =>
            rw [henc] at hc
            simp at hc
            subst hc
            dsimp
            omega
        | ok len =>
            rw [henc] at hc
            simp at hc
            rcases hc with hc | hc
            · subst hc
              dsimp
              omega
            · have := ih len (q - 10) (a + 1) c hc
              exact ⟨this.1, by omega⟩
      · rw [if_neg h] at hc; simp at hc

theorem refineAux_fields (codec : Codec) (cfg : Config) (p fmt : String) :
    ∀ (fuel bufLen : ℕ) (quality : ℤ) (attempts : ℕ),
      ∀ c ∈ (refineAux codec cfg p fmt fuel bufLen quality attempts).1,
        c.source = p ∧
        c.resize = refineResize cfg.targetWidth cfg.targetHeight (MAX_DIMENSION cfg) ∧
        c.format = fmt ∧
        c.opts = formatOptionsFor fmt c.q := by
  intro fuel
  induction fuel with
  | zero => intro b q a c hc; simp [refineAux] at hc
  | succ n ih =>
      intro b q a c hc
      simp only [refineAux] at hc
      by_cases h : TARGET_SIZE < b ∧ 10 < q ∧ a < 5
      · rw [if_pos h] at hc
        cases henc : codec.encode p
            (refineResize cfg.targetWidth cfg.targetHeight (MAX_DIMENSION cfg)) fmt
            (formatOptionsFor fmt (q - 10)) with
        | error e =>
            rw [henc] at hc
            simp at hc
            subst hc
            exact ⟨rfl, rfl, rfl, rfl⟩
        | ok len =>
            rw [henc] at hc
            simp at hc
            rcases hc with hc | hc
            · subst hc
              exact ⟨rfl, rfl, rfl, rfl⟩
            · exact ih len (q - 10) (a + 1) c hc
      · rw [if_neg h] at hc; simp at hc

theorem refineAux_no_entry (codec : Codec) (cfg : Config) (p fmt : String)
    (fuel bufLen : ℕ) (quality : ℤ) (attempts : ℕ) (hb : bufLen ≤ TARGET_SIZE) :
    (refineAux codec cfg p fmt fuel bufLen quality attempts).1 = [] := by
  cases fuel with
  | zero => simp [refineAux]
  | succ n =>
      simp only [refineAux]
      rw [if_neg (by omega)]

theorem refineAux_ok_results (codec : Codec) (cfg : Config) (p fmt : String) :
    ∀ (fuel bufLen : ℕ) (quality : ℤ) (attempts : ℕ) (v : ℕ × ℤ × ℕ),
      (refineAux codec cfg p fmt fuel bufLen quality attempts).2 = .ok v →
      ∀ c ∈ (refineAux codec cfg p fmt fuel bufLen quality attempts).1,
        c.result ≠ none := by
  intro fuel
  induction fuel with
  | zero => intro b q a v _ c hc; simp [refineAux] at hc
  | succ n ih =>
      intro b q a v hv c hc
      simp only [refineAux] at hv hc
      by_cases h : TARGET_SIZE < b ∧ 10 < q ∧ a < 5
      · rw [if_pos h] at hv hc
        cases henc : codec.encode p
            (refineResize cfg.targetWidth cfg.targetHeight (MAX_DIMENSION cfg)) fmt
            (formatOptionsFor fmt (q - 10)) with
        | error e => rw [henc] at hv; simp at hv
        | ok len =>
            rw [henc] at hv hc
            simp at hv hc
            rcases hc with hc | hc
            · subst hc; simp
            · exact ih len (q - 10) (a + 1) v hv c hc
      · rw [if_neg h] at hc; simp at hc

theorem compressCore_trace (codec : Codec) (cfg : Config) (p : String) (n : ℕ) (q0 : ℤ) :
    (compressCore codec cfg p n q0).2 =
      match codec.encode p (initialResize cfg.targetWidth cfg.targetHeight (MAX_DIMENSION cfg))
          (outputFormat cfg.targetFormat) (formatOptionsFor (outputFormat cfg.targetFormat) q0) with
      | .error _ =>
          [⟨p, initialResize cfg.targetWidth cfg.targetHeight (MAX_DIMENSION cfg),
            outputFormat cfg.targetFormat, q0,
            formatOptionsFor (outputFormat cfg.targetFormat) q0, none⟩]
      | .ok len =>
          ⟨p, initialResize cfg.targetWidth cfg.targetHeight (MAX_DIMENSION cfg),
            outputFormat cfg.targetFormat, q0,
            formatOptionsFor (outputFormat cfg.targetFormat) q0, some len⟩ ::
          (refineAux codec cfg p (outputFormat cfg.targetFormat) 5 len q0 0).1 := by
  simp only [compressCore]
  cases codec.encode p (initialResize cfg.targetWidth cfg.targetHeight (MAX_DIMENSION cfg))
      (outputFormat cfg.targetFormat) (formatOptionsFor (outputFormat cfg.targetFormat) q0) with
  | error e => rfl
  | ok len => rfl

theorem compressCore_calls (codec : Codec) (cfg : Config) (p : String) (n : ℕ) (q0 : ℤ) :
    ∀ c ∈ (compressCore codec cfg p n q0).2,
      c.source = p ∧
      c.resize = initialResize cfg.targetWidth cfg.targetHeight (MAX_DIMENSION cfg) ∧
      c.format = outputFormat cfg.targetFormat ∧
      c.opts = formatOptionsFor (outputFormat cfg.targetFormat) c.q ∧
      (c.q = q0 ∨ (1 ≤ c.q ∧ c.q ≤ q0 - 10)) := by
  intro c hc
  rw [compressCore_trace] at hc
  cases henc : codec.encode p (initialResize cfg.targetWidth cfg.targetHeight (MAX_DIMENSION cfg))
      (outputFormat cfg.targetFormat) (formatOptionsFor (outputFormat cfg.targetFormat) q0) with
  | error e =>
      rw [henc] at hc
      simp at hc
      subst hc
      exact ⟨rfl, rfl, rfl, rfl, Or.inl rfl⟩
  | ok len =>
      rw [henc] at hc
      simp at hc
      rcases hc with hc | hc
      · subst hc
        exact ⟨rfl, rfl, rfl, rfl, Or.inl rfl⟩
      · obtain ⟨h1, h2, h3, h4⟩ :=
          refineAux_fields codec cfg p (outputFormat cfg.targetFormat) 5 len q0 0 c hc
        obtain ⟨h5, h6⟩ :=
          refineAux_q_bounds codec cfg p (outputFormat cfg.targetFormat) 5 len q0 0 c hc
        exact ⟨h1, by rw [h2, refineResize_eq_initialResize], h3, h4, Or.inr ⟨h5, h6⟩⟩

theorem compressCore_tail_q (codec : Codec) (cfg : Config) (p : String) (n : ℕ) (q0 : ℤ)
    (i : ℕ) (c : EncodeCall)
    (hc : (compressCore codec cfg p n q0).2.tail.get? i = some c) :
    c.q = q0 - 10 * ((i : ℤ) + 1) := by
  rw [compressCore_trace] at hc
  cases henc : codec.encode p (initialResize cfg.targetWidth cfg.targetHeight (MAX_DIMENSION cfg))
      (outputFormat cfg.targetFormat) (formatOptionsFor (outputFormat cfg.targetFormat) q0) with
  | error e => rw [henc] at hc; simp at hc
  | ok len =>
      rw [henc] at hc
      simp only [List.tail_cons] at hc
      exact refineAux_q_at codec cfg p (outputFormat cfg.targetFormat) 5 len q0 0 i c hc

theorem compressCore_tail_len (codec : Codec) (cfg : Config) (p : String) (n : ℕ) (q0 : ℤ) :
    (compressCore codec cfg p n q0).2.tail.length ≤ 5 := by
  rw [compressCore_trace]
  cases henc : codec.encode p (initialResize cfg.targetWidth cfg.targetHeight (MAX_DIMENSION cfg))
      (outputFormat cfg.targetFormat) (formatOptionsFor (outputFormat cfg.targetFormat) q0) with
  | error e => simp
  | ok len =>
      simp only [List.tail_cons]
      exact refineAux_len codec cfg p (outputFormat cfg.targetFormat) 5 len q0 0

theorem compressCore_first_fit (codec : Codec) (cfg : Config) (p : String) (n : ℕ) (q0 : ℤ)
    (len : ℕ)
    (h0 : ((compressCore codec cfg p n q0).2.get? 0).bind EncodeCall.result = some len)
    (hfit : len ≤ TARGET_SIZE) :
    (compressCore codec cfg p n q0).2.tail = [] := by
  rw [compressCore_trace] at h0 ⊢
  cases henc : codec.encode p (initialResize cfg.targetWidth cfg.targetHeight (MAX_DIMENSION cfg))
      (outputFormat cfg.targetFormat) (formatOptionsFor (outputFormat cfg.targetFormat) q0) with
  | error e =>
      rw [henc] at h0
      simp at h0
  | ok len2 =>
      rw [henc] at h0
      simp at h0
      simp only [List.tail_cons]
      rw [h0]
      exact refineAux_no_entry codec cfg p (outputFormat cfg.targetFormat) 5 len q0 0 hfit

theorem compressCore_error_result (codec : Codec) (cfg : Config) (p : String) (n : ℕ) (q0 : ℤ)
    (h : ∃ c ∈ (compressCore codec cfg p n q0).2, c.result = none) :
    (compressCore codec cfg p n q0).1 = n := by
  obtain ⟨c, hc, hnone⟩ := h
  rw [compressCore_trace] at hc
  simp only [compressCore]
  cases henc : codec.encode p (initialResize cfg.targetWidth cfg.targetHeight (MAX_DIMENSION cfg))
      (outputFormat cfg.targetFormat) (formatOptionsFor (outputFormat cfg.targetFormat) q0) with
  | error e => rfl
  | ok len =>
      rw [henc] at hc
      dsimp only
      cases hrest : (refineAux codec cfg p (outputFormat cfg.targetFormat) 5 len q0 0).2 with
      | error e => rfl
      | ok v =>
          exfalso
          simp at hc
          rcases hc with hc | hc
          · rw [hc] at hnone
            simp at hnone
          · exact refineAux_ok_results codec cfg p (outputFormat cfg.targetFormat) 5 len q0 0 v
              hrest c hc hnone

/-! Concrete evaluations of the quality seed (the rational arithmetic is
evaluated by `norm_num`; everything after the seed is kernel-computable). -/

theorem clampedQuality_50000 :
    clampedQuality ((TARGET_SIZE : ℚ) / ((50000 : ℕ) : ℚ)) = 95 := by
  have h : ((TARGET_SIZE : ℚ) / ((50000 : ℕ) : ℚ)) = 256/125 := by
    norm_num [TARGET_SIZE]
  have he : estimateQuality (256/125) = 147 := by
    rw [estimateQuality, if_pos (by norm_num)]
    exact jsRound_eq _ 147 (by norm_num) (by norm_num)
  rw [clampedQuality, h, he]
  decide

theorem clampedQuality_500000 :
    clampedQuality ((TARGET_SIZE : ℚ) / ((500000 : ℕ) : ℚ)) = 44 := by
  have h : ((TARGET_SIZE : ℚ) / ((500000 : ℕ) : ℚ)) = 128/625 := by
    norm_num [TARGET_SIZE]
  have he : estimateQuality (128/625) = 44 := by
    rw [estimateQuality, if_neg (by norm_num), if_neg (by norm_num), if_neg (by norm_num)]
    exact jsRound_eq _ 44 (by norm_num) (by norm_num)
  rw [clampedQuality, h, he]
  decide

theorem clampedQuality_1400000 :
    clampedQuality ((TARGET_SIZE : ℚ) / ((1400000 : ℕ) : ℚ)) = 35 := by
  have h : ((TARGET_SIZE : ℚ) / ((1400000 : ℕ) : ℚ)) = 64/875 := by
    norm_num [TARGET_SIZE]
  have he : estimateQuality (64/875) = 35 := by
    rw [estimateQuality, if_neg (by norm_num), if_neg (by norm_num), if_neg (by norm_num)]
    exact jsRound_eq _ 35 (by norm_num) (by norm_num)
  rw [clampedQuality, h, he]
  decide

/-- The resize options the default configuration produces: fit inside a
1920 square without enlargement. -/
def defaultResize : ResizeOptions := ⟨some 1920, some 1920, some .inside, true⟩

/-! Claim theorems. -/

/-- C4: for every sizeRatio the quality seed (estimate followed by the
clamp of line 92) equals the spec's piecewise-linear formula rounded to
nearest and clamped to the interval from 10 to 95; for every sizeRatio at
least 0.8 the seed lies between 85 and 95, and it is exactly 95 at
ratio 1.0 and exactly 85 at ratio 0.8. -/
theorem c4_quality_estimator :
    (∀ r : ℚ, clampedQuality r = specSeed r) ∧
    (∀ r : ℚ, 8/10 ≤ r → 85 ≤ clampedQuality r ∧ clampedQuality r ≤ 95) ∧
    clampedQuality 1 = 95 ∧ clampedQuality (8/10) = 85 := by
  refine ⟨?_, ?_, ?_, ?_⟩
  · intro r
    rw [clampedQuality, specSeed, estimateQuality]
    split_ifs <;> rfl
  · intro r hr
    refine ⟨?_, clampedQuality_le95 r⟩
    have hE : (85 : ℤ) ≤ estimateQuality r := by
      rw [estimateQuality, if_pos hr]
      apply le_jsRound
      have : (0 : ℚ) ≤ (r - 8/10) * 50 := mul_nonneg (by linarith) (by norm_num)
      push_cast
      linarith
    calc (85 : ℤ) ≤ min 95 (estimateQuality r) := le_min (by norm_num) hE
      _ ≤ max 10 (min 95 (estimateQuality r)) := le_max_right _ _
  · have he : estimateQuality 1 = 95 := by
      rw [estimateQuality, if_pos (by norm_num)]
      exact jsRound_eq _ 95 (by norm_num) (by norm_num)
    rw [clampedQuality, he]
    decide
  · have he : estimateQuality (8/10) = 85 := by
      rw [estimateQuality, if_pos (by norm_num)]
      exact jsRound_eq _ 85 (by norm_num) (by norm_num)
    rw [clampedQuality, he]
    decide

/-- C4 witness: the bounds instantiated at the concrete ratio 0.9. -/
theorem c4_quality_estimator_witness :
    85 ≤ clampedQuality (9/10) ∧ clampedQuality (9/10) ≤ 95 :=
  c4_quality_estimator.2.1 (9/10) (by norm_num)

/-- C7: the Resize Planner (the block of lines 100-133, parameterised by
the parsed width and height and the maxDimension value) maps its inputs
exactly as claimed: both dimensions truthy gives exact-fill to the pair
with enlargement allowed; one dimension truthy gives fit-inside with no
enlargement; neither truthy with positive maxDimension gives a
maxDimension-square fit-inside with no enlargement; neither truthy with
nonpositive maxDimension gives no resize. -/
theorem c7_resize_planner (w h : Option ℤ) (m : ℤ) :
    (truthy w = true → truthy h = true →
      initialResize w h m = some ⟨w, h, some .fill, false⟩) ∧
    (truthy w = true → truthy h = false →
      initialResize w h m = some ⟨w, none, some .inside, true⟩) ∧
    (truthy w = false → truthy h = true →
      initialResize w h m = some ⟨none, h, some .inside, true⟩) ∧
    (truthy w = false → truthy h = false → 0 < m →
      initialResize w h m = some ⟨some m, some m, some .inside, true⟩) ∧
    (truthy w = false → truthy h = false → m ≤ 0 →
      initialResize w h m = none) := by
  refine ⟨?_, ?_, ?_, ?_, ?_⟩
  · intro hw hh
    rw [initialResize]
    simp [hw, hh]
  · intro hw hh
    rw [initialResize]
    simp [hw, hh]
  · intro hw hh
    rw [initialResize]
    simp [hw, hh]
  · intro hw hh hm
    rw [initialResize]
    simp only [hw, hh, Bool.or_self, Bool.false_eq_true, if_false]
    rw [if_pos hm]
  · intro hw hh hm
    rw [initialResize]
    simp only [hw, hh, Bool.or_self, Bool.false_eq_true, if_false]
    rw [if_neg (by omega)]

/-- C7 witness: only a width of 800 requested (maxDimension disabled). -/
theorem c7_resize_planner_witness :
    initialResize (some 800) none 0 = some ⟨some 800, none, some .inside, true⟩ :=
  (c7_resize_planner (some 800) none 0).2.1 (by decide) (by decide)

/-- C2 counterexample: a 1400000-byte file seeds quality 35; with every
encode over target the refinement loop encodes at qualities 25, 15 and
then 5, so the quality used for a refinement encode drops below 10 (the
guard checks quality is above 10 before, not after, the decrement). -/
theorem c2_quality_floor_counterexample :
    ¬ (∀ c ∈ (compressWithRatio bigCodec cfgNone "a.png" 1400000).2.tail, 10 ≤ c.q) := by
  rw [compressWithRatio, clampedQuality_1400000]
  decide

/-- C2 (amended): the quality used at every encode, refinement encodes
included, is at least 1 and at most 95 (not at least 10: entering a
refinement step only requires the previous quality to exceed 10, so the
decremented value can be as low as 1). -/
theorem c2_quality_floor_amended (codec : Codec) (cfg : Config) (p : String) (n : ℕ) :
    ∀ c ∈ (compressWithRatio codec cfg p n).2, 1 ≤ c.q ∧ c.q ≤ 95 := by
  intro c hc
  simp only [compressWithRatio] at hc
  obtain ⟨-, -, -, -, hq⟩ := compressCore_calls codec cfg p n _ c hc
  have h10 := ten_le_clampedQuality ((TARGET_SIZE : ℚ) / (n : ℚ))
  have h95 := clampedQuality_le95 ((TARGET_SIZE : ℚ) / (n : ℚ))
  rcases hq with h | ⟨h1, h2⟩ <;> omega

/-- C2 witness: the amended bound holds at the quality-5 refinement
encode of the counterexample run. -/
theorem c2_quality_floor_witness :
    1 ≤ (⟨"a.png", some defaultResize, "jpeg", 5, .quality 5, some 200000⟩ : EncodeCall).q ∧
    (⟨"a.png", some defaultResize, "jpeg", 5, .quality 5, some 200000⟩ : EncodeCall).q ≤ 95 := by
  apply c2_quality_floor_amended bigCodec cfgNone "a.png" 1400000
  rw [compressWithRatio, clampedQuality_1400000]
  decide

/-- C5: the refinement loop makes at most 5 refinement encodes; the i-th
refinement encode (0-based, the trace entries after the initial attempt)
uses quality exactly Q0 - 10 * (i + 1) where Q0 is the clamped seed, so
quality decreases by exactly 10 per iteration, is monotonically
non-increasing, and never exceeds the initial clamped value; and if the
initial encode already meets the target no refinement happens. The loop
terminates for every input because the embedding is a total function. -/
theorem c5_refine_loop_bounded (codec : Codec) (cfg : Config) (p : String) (n : ℕ) :
    (compressWithRatio codec cfg p n).2.tail.length ≤ 5 ∧
    (∀ (i : ℕ) (c : EncodeCall),
      (compressWithRatio codec cfg p n).2.tail.get? i = some c →
      c.q = clampedQuality ((TARGET_SIZE : ℚ) / (n : ℚ)) - 10 * ((i : ℤ) + 1)) ∧
    (∀ c ∈ (compressWithRatio codec cfg p n).2.tail,
      c.q < clampedQuality ((TARGET_SIZE : ℚ) / (n : ℚ))) ∧
    (∀ len : ℕ,
      ((compressWithRatio codec cfg p n).2.get? 0).bind EncodeCall.result = some len →
      len ≤ TARGET_SIZE →
      (compressWithRatio codec cfg p n).2.tail = []) ∧
    (∀ (i : ℕ) (c : EncodeCall),
      (compressWithRatio codec cfg p n).2.tail.get? i = some c →
      10 < clampedQuality ((TARGET_SIZE : ℚ) / (n : ℚ)) - 10 * (i : ℤ)) := by
  simp only [compressWithRatio]
  refine ⟨compressCore_tail_len codec cfg p n _, ?_, ?_, ?_, ?_⟩
  · intro i c hc
    exact compressCore_tail_q codec cfg p n _ i c hc
  · intro c hc
    obtain ⟨i, hi⟩ := List.mem_iff_get?.mp hc
    have := compressCore_tail_q codec cfg p n _ i c hi
    have hnn : (0 : ℤ) ≤ (i : ℤ) := Int.natCast_nonneg i
    omega
  · intro len h0 hfit
    exact compressCore_first_fit codec cfg p n _ len h0 hfit
  · intro i c hc
    have hq := compressCore_tail_q codec cfg p n _ i c hc
    have hmem : c ∈ (compressCore codec cfg p n
        (clampedQuality ((TARGET_SIZE : ℚ) / (n : ℚ)))).2 :=
      List.mem_of_mem_tail (List.get?_mem hc)
    obtain ⟨-, -, -, -, hb⟩ := compressCore_calls codec cfg p n _ c hmem
    have hnn : (0 : ℤ) ≤ (i : ℤ) := Int.natCast_nonneg i
    have h10 := ten_le_clampedQuality ((TARGET_SIZE : ℚ) / (n : ℚ))
    rcases hb with h | ⟨h1, h2⟩ <;> omega

/-- C5 witness: in the counterexample run the third refinement encode
(index 2) uses quality 35 - 30 = 5. -/
theorem c5_refine_loop_witness :
    (⟨"a.png", some defaultResize, "jpeg", 5, .quality 5, some 200000⟩ : EncodeCall).q =
      clampedQuality ((TARGET_SIZE : ℚ) / ((1400000 : ℕ) : ℚ)) - 10 * (((2 : ℕ) : ℤ) + 1) := by
  apply (c5_refine_loop_bounded bigCodec cfgNone "a.png" 1400000).2.1 2
  rw [compressWithRatio, clampedQuality_1400000]
  decide

/-- C6: the resize options recomputed inside the refinement loop coincide
with the initial attempt's (no drift), and every encode call of a file's
search, refinements included, reads from the original source path and
carries that same resize spec. -/
theorem c6_resize_spec_stable (codec : Codec) (cfg : Config) (p : String) (n : ℕ) :
    (∀ (w h : Option ℤ) (m : ℤ), refineResize w h m = initialResize w h m) ∧
    ∀ c ∈ (compressWithRatio codec cfg p n).2,
      c.source = p ∧
      c.resize = initialResize cfg.targetWidth cfg.targetHeight (MAX_DIMENSION cfg) := by
  refine ⟨refineResize_eq_initialResize, ?_⟩
  intro c hc
  simp only [compressWithRatio] at hc
  obtain ⟨h1, h2, -, -, -⟩ := compressCore_calls codec cfg p n _ c hc
  exact ⟨h1, h2⟩

/-- C6 witness: the quality-5 refinement call of the counterexample run
reads from the original path and uses the initial resize spec. -/
theorem c6_resize_spec_witness :
    (⟨"a.png", some defaultResize, "jpeg", 5, .quality 5, some 200000⟩ : EncodeCall).source =
      "a.png" ∧
    (⟨"a.png", some defaultResize, "jpeg", 5, .quality 5, some 200000⟩ : EncodeCall).resize =
      initialResize cfgNone.targetWidth cfgNone.targetHeight (MAX_DIMENSION cfgNone) := by
  apply (c6_resize_spec_stable bigCodec cfgNone "a.png" 1400000).2
  rw [compressWithRatio, clampedQuality_1400000]
  decide

/-- C9: every encode call is made with an integer quality scalar between
1 and 95; PNG output always receives a compression level
floor((100 - quality) / 10) lying between 0 and 9, and every other format
receives the quality scalar itself, so the parameters stay inside the
codec's valid domain. -/
theorem c9_encode_params_valid (codec : Codec) (cfg : Config) (p : String) (n : ℕ) :
    ∀ c ∈ (compressWithRatio codec cfg p n).2,
      (1 ≤ c.q ∧ c.q ≤ 95) ∧
      (c.format = "png" →
        c.opts = .compressionLevel (Int.fdiv (100 - c.q) 10) ∧
        0 ≤ Int.fdiv (100 - c.q) 10 ∧ Int.fdiv (100 - c.q) 10 ≤ 9) ∧
      (c.format ≠ "png" → c.opts = .quality c.q) := by
  intro c hc
  simp only [compressWithRatio] at hc
  obtain ⟨-, -, h3, h4, hq⟩ := compressCore_calls codec cfg p n _ c hc
  have h10 := ten_le_clampedQuality ((TARGET_SIZE : ℚ) / (n : ℚ))
  have h95 := clampedQuality_le95 ((TARGET_SIZE : ℚ) / (n : ℚ))
  have hq1 : 1 ≤ c.q ∧ c.q ≤ 95 := by rcases hq with h | ⟨h1, h2⟩ <;> omega
  refine ⟨hq1, ?_, ?_⟩
  · intro hpng
    rw [h3] at hpng
    rw [h4, formatOptionsFor, if_pos hpng]
    refine ⟨rfl, ?_⟩
    rw [Int.fdiv_eq_ediv _ (by norm_num)]
    omega
  · intro hnpng
    rw [h3] at hnpng
    rw [h4, formatOptionsFor, if_neg hnpng]

/-- C9 witness: the parameter-domain facts at the quality-5 refinement
call of the counterexample run (a jpeg encode at quality 5). -/
theorem c9_encode_params_witness :
    (1 ≤ (⟨"a.png", some defaultResize, "jpeg", 5, .quality 5, some 200000⟩ : EncodeCall).q ∧
      (⟨"a.png", some defaultResize, "jpeg", 5, .quality 5, some 200000⟩ : EncodeCall).q ≤ 95) ∧
    ((⟨"a.png", some defaultResize, "jpeg", 5, .quality 5, some 200000⟩ : EncodeCall).format =
        "png" →
      (⟨"a.png", some defaultResize, "jpeg", 5, .quality 5, some 200000⟩ : EncodeCall).opts =
        .compressionLevel (Int.fdiv
          (100 - (⟨"a.png", some defaultResize, "jpeg", 5, .quality 5,
            some 200000⟩ : EncodeCall).q) 10) ∧
      0 ≤ Int.fdiv
          (100 - (⟨"a.png", some defaultResize, "jpeg", 5, .quality 5,
            some 200000⟩ : EncodeCall).q) 10 ∧
      Int.fdiv
          (100 - (⟨"a.png", some defaultResize, "jpeg", 5, .quality 5,
            some 200000⟩ : EncodeCall).q) 10 ≤ 9) ∧
    ((⟨"a.png", some defaultResize, "jpeg", 5, .quality 5, some 200000⟩ : EncodeCall).format ≠
        "png" →
      (⟨"a.png", some defaultResize, "jpeg", 5, .quality 5, some 200000⟩ : EncodeCall).opts =
        .quality (⟨"a.png", some defaultResize, "jpeg", 5, .quality 5,
          some 200000⟩ : EncodeCall).q) := by
  apply c9_encode_params_valid bigCodec cfgNone "a.png" 1400000
  rw [compressWithRatio, clampedQuality_1400000]
  decide

/-- C1 counterexample: a 50000-byte png (under the 102400-byte target)
processed with no w/h/t flags needs no format conversion, yet the batch
driver does not skip it: compression is invoked (and here shrinks it to
40000 bytes), because the default MAX_DIMENSION of 1920 makes
needsResize true. -/
theorem c1_skip_rule_counterexample :
    50000 ≤ TARGET_SIZE ∧
    needsFormatConversion cfgNone.targetFormat "png" = false ∧
    processFile smallCodec cfgNone ⟨"a.png", "png", 50000⟩ = .compressed 40000 ∧
    FileOutcome.compressed 40000 ≠ .policySkip := by
  refine ⟨by decide, by decide, ?_, by decide⟩
  rw [processFile]
  rw [if_neg (by decide), if_neg (by decide)]
  rw [compressWithRatio, clampedQuality_50000]
  decide

/-- C1 (amended): the skip condition is originalSize at most the target
AND no format conversion needed AND needsResize false, where needsResize
counts the default MAX_DIMENSION of 1920; since MAX_DIMENSION is positive
whenever no width or height flag is given, needsResize is always true, so
the policy-skip branch is unreachable: an already-under-target file with
no flags is processed again, not skipped. -/
theorem c1_skip_rule_amended (cfg : Config) (f : FileEntry) :
    needsResize cfg = true ∧
    shouldSkip cfg f = false ∧
    (∀ (codec : Codec) (files : List FileEntry) (pr : FileEntry × FileOutcome),
      pr ∈ compressImages codec cfg files → pr.2 ≠ .policySkip) := by
  have hnr : ∀ cfg2 : Config, needsResize cfg2 = true := by
    intro cfg2
    rw [needsResize, MAX_DIMENSION]
    cases hw : truthy cfg2.targetWidth <;> cases hh : truthy cfg2.targetHeight <;> simp
  have hss : ∀ (cfg2 : Config) (g : FileEntry), shouldSkip cfg2 g = false := by
    intro cfg2 g
    rw [shouldSkip, hnr cfg2]
    simp
  refine ⟨hnr cfg, hss cfg f, ?_⟩
  intro codec files pr hpr
  simp only [compressImages, List.mem_map] at hpr
  obtain ⟨g, hg, rfl⟩ := hpr
  dsimp only
  rw [processFile]
  by_cases h0 : g.size = 0
  · rw [if_pos h0]
    decide
  · rw [if_neg h0, if_neg (by rw [hss cfg g]; exact Bool.false_ne_true)]
    dsimp only
    split <;> simp

/-- C1 witness: a zero-size file entry in a one-file batch is classified
sizeReadSkip, which is not a policy skip. -/
theorem c1_skip_rule_witness :
    ((⟨"b.png", "png", 0⟩, FileOutcome.sizeReadSkip) : FileEntry × FileOutcome).2 ≠
      FileOutcome.policySkip := by
  apply (c1_skip_rule_amended cfgNone ⟨"a.png", "png", 50000⟩).2.2 smallCodec
    [⟨"b.png", "png", 0⟩]
  decide

/-- C3 counterexample: compressing a png source with no flags makes every
encode call a jpeg encode, so the source format is not preserved: the
single encode call of this run has format jpeg, not png. -/
theorem c3_format_preserved_counterexample :
    (compressWithRatio smallCodec cfgNone "a.png" 500000).2.map EncodeCall.format = ["jpeg"] ∧
    ("jpeg" : String) ≠ "png" := by
  refine ⟨?_, by decide⟩
  rw [compressWithRatio, clampedQuality_500000]
  decide

/-- C3 (amended): when no truthy t= flag is given the output format is
the constant default jpeg for every source (line 137), not the source's
own format: every encode call of every file carries format jpeg. -/
theorem c3_default_format_amended (cfg : Config) (hfmt : strTruthy cfg.targetFormat = false)
    (codec : Codec) (p : String) (n : ℕ) :
    outputFormat cfg.targetFormat = "jpeg" ∧
    ∀ c ∈ (compressWithRatio codec cfg p n).2, c.format = "jpeg" := by
  have hout : outputFormat cfg.targetFormat = "jpeg" := by
    rw [outputFormat, hfmt]
    simp
  refine ⟨hout, ?_⟩
  intro c hc
  simp only [compressWithRatio] at hc
  obtain ⟨-, -, h3, -, -⟩ := compressCore_calls codec cfg p n _ c hc
  rw [h3, hout]

/-- C3 witness: the encode call of the counterexample run is a jpeg
encode even though the source is a png. -/
theorem c3_default_format_witness :
    (⟨"a.png", some defaultResize, "jpeg", 44, .quality 44, some 40000⟩ : EncodeCall).format =
      "jpeg" := by
  apply (c3_default_format_amended cfgNone (by decide) smallCodec "a.png" 500000).2
  rw [compressWithRatio, clampedQuality_500000]
  decide

/-- C8: a codec failure at any attempt is contained at single-file scope:
if any encode call of a file's search failed, the search returns the
file's original size unchanged; and the batch driver still produces one
outcome for every candidate file (the loop never aborts), so no per-file
codec failure aborts the batch. -/
theorem c8_error_contained (codec : Codec) (cfg : Config) (p : String) (n : ℕ)
    (files : List FileEntry) :
    ((∃ c ∈ (compressWithRatio codec cfg p n).2, c.result = none) →
      (compressWithRatio codec cfg p n).1 = n) ∧
    (compressImages codec cfg files).map Prod.fst = files.filter isImageFile := by
  constructor
  · intro h
    simp only [compressWithRatio] at h ⊢
    exact compressCore_error_result codec cfg p n _ h
  · simp only [compressImages, List.map_map]
    have hid : (Prod.fst ∘ fun f => (f, processFile codec cfg f)) = id := rfl
    rw [hid, List.map_id]

/-- C8 witness: with an always-failing codec a 500000-byte file's search
returns 500000 unchanged. -/
theorem c8_error_contained_witness :
    (compressWithRatio failCodec cfgNone "a.png" 500000).1 = 500000 := by
  apply (c8_error_contained failCodec cfgNone "a.png" 500000 []).1
  rw [compressWithRatio, clampedQuality_500000]
  decide

/-- C10: every candidate file the batch driver passes to the compression
search has positive size (zero-size reads, covering stat failures and
empty files, are skipped first), so the size ratio
TARGET_SIZE / originalSize is a well-defined positive rational. -/
theorem c10_positive_size (codec : Codec) (cfg : Config) (files : List FileEntry) :
    ∀ pr ∈ compressImages codec cfg files,
      pr.2 = .sizeReadSkip ∨ pr.2 = .policySkip ∨
      (0 < pr.1.size ∧ 0 < (TARGET_SIZE : ℚ) / ((pr.1.size : ℕ) : ℚ)) := by
  intro pr hpr
  simp only [compressImages, List.mem_map] at hpr
  obtain ⟨f, hf, rfl⟩ := hpr
  dsimp only
  rw [processFile]
  by_cases h0 : f.size = 0
  · rw [if_pos h0]
    left
    rfl
  · rw [if_neg h0]
    by_cases hs : shouldSkip cfg f = true
    · rw [if_pos hs]
      right
      left
      rfl
    · rw [if_neg hs]
      right
      right
      have hpos : 0 < f.size := Nat.pos_of_ne_zero h0
      refine ⟨hpos, div_pos (by norm_num [TARGET_SIZE]) (by exact_mod_cast hpos)⟩

/-- C10 witness: a zero-size entry is skipped as a size-read failure; the
theorem applied to a one-file batch containing it. -/
theorem c10_positive_size_witness :
    ((⟨"b.png", "png", 0⟩, FileOutcome.sizeReadSkip) : FileEntry × FileOutcome).2 =
        FileOutcome.sizeReadSkip ∨
    ((⟨"b.png", "png", 0⟩, FileOutcome.sizeReadSkip) : FileEntry × FileOutcome).2 =
        FileOutcome.policySkip ∨
    (0 < ((⟨"b.png", "png", 0⟩, FileOutcome.sizeReadSkip) : FileEntry × FileOutcome).1.size ∧
      0 < (TARGET_SIZE : ℚ) /
        ((((⟨"b.png", "png", 0⟩, FileOutcome.sizeReadSkip) :
          FileEntry × FileOutcome).1.size : ℕ) : ℚ)) := by
  apply c10_positive_size smallCodec cfgNone [⟨"b.png", "png", 0⟩]
  decide

end Cate
